import Mathlib

/-!
Shallow embedding of the `reputation-nft-contract` Soroban contract
(`contracts-offerhub/contracts/reputation-nft-contract/src/{types,storage,contract}.rs`).

Persistent storage is modelled as an explicit `ContractState` record threaded
through every operation.  Soroban `Map`s are modelled as association lists with
unique keys (`alSet` replaces in place or appends); `Address` and `TokenId`
(`u64`) are modelled as `Nat` (the id counter only ever increments by one and
an overflow of `u64` traps the host, so no wrap-around arithmetic occurs).
Event emission and the ledger clock are external collaborators and are modelled
as no-ops / a fixed `now` field.  Every state-mutating entry point returns
`Except Error Unit × ContractState`: the state component carries exactly the
storage writes performed before the function returned, so partially committed
effects (relevant for batch minting) are observable.

The repository sources do not include `access.rs` and `metadata.rs` (only
`contract.rs`, `storage.rs`, `types.rs`, `test.rs` are present); the functions
imported from those two modules are modelled from the spec (§4.2, §4.3) and are
marked `Modelled from the spec:` below.
-/

namespace RepNFT

/-- `pub type TokenId = u64` (types.rs). -/
abbrev TokenId := Nat

/-- Opaque `soroban_sdk::Address`, modelled as a `Nat`. -/
abbrev Address := Nat

/-- `enum AchievementType` (types.rs lines 16-22). -/
inductive AchievementType where
  | Standard
  | Reputation
  | ProjectMilestone
  | RatingMilestone
  | CustomAchievement
deriving DecidableEq, Repr

/-- `struct Metadata` (types.rs lines 7-12). -/
structure Metadata where
  name : String
  description : String
  uri : String
  achievement_type : AchievementType
deriving DecidableEq, Repr

/-- `enum Error` (types.rs lines 26-34). -/
inductive Error where
  | Unauthorized
  | TokenDoesNotExist
  | TokenAlreadyExists
  | AlreadyMinter
  | NotMinter
  | NonTransferableToken
  | InvalidAchievementType
deriving DecidableEq, Repr

deriving instance DecidableEq for Except

/-! ### Association lists with unique keys, modelling `soroban_sdk::Map` -/

/-- Lookup of a key: `Map::get`. -/
def alGet {α β : Type} [DecidableEq α] : List (α × β) → α → Option β
  | [], _ => none
  | e :: t, k => if e.1 = k then some e.2 else alGet t k

/-- Insert-or-replace: `Map::set` (keeps keys unique). -/
def alSet {α β : Type} [DecidableEq α] : List (α × β) → α → β → List (α × β)
  | [], k, v => [(k, v)]
  | e :: t, k, v => if e.1 = k then (k, v) :: t else e :: alSet t k v

/-- Key removal: `Map::remove` / `storage.remove`. -/
def alRemove {α β : Type} [DecidableEq α] : List (α × β) → α → List (α × β)
  | [], _ => []
  | e :: t, k => if e.1 = k then alRemove t k else e :: alRemove t k

/-! ### Contract storage state

One field per distinct storage key family of storage.rs / types.rs:
`TOKEN_OWNER`, `TOKEN_METADATA`, `ADMIN`, `MINTER`, `USER_ACHIEVEMENTS`,
`ACHIEVEMENT_STATS`, `ACHIEVEMENT_LEADERBOARD`, the `TOKEN_ID_COUNTER`, and the
per-user reputation rows written by `store_reputation_score`. -/
structure ContractState where
  admin : Option Address
  minters : List (Address × Bool)
  owners : List (TokenId × Address)
  metas : List (TokenId × Metadata)
  userAchievements : List (Address × List TokenId)
  achievementStats : List (AchievementType × Nat)
  leaderboard : List (Address × Nat)
  reputation : List (Address × (Nat × Nat × Nat))
  counter : TokenId
  now : Nat
deriving DecidableEq, Repr

/-- Fresh contract instance: nothing stored, counter unset (reads as 0). -/
def initState : ContractState :=
  { admin := none, minters := [], owners := [], metas := [], userAchievements := []
    achievementStats := [], leaderboard := [], reputation := [], counter := 0, now := 0 }

/-! ### storage.rs -/

/-- `save_token_owner` (storage.rs lines 6-9): unconditional write. -/
def save_token_owner (s : ContractState) (id : TokenId) (owner : Address) : ContractState :=
  { s with owners := alSet s.owners id owner }

/-- `get_token_owner` (storage.rs lines 11-21). -/
def get_token_owner (s : ContractState) (id : TokenId) : Except Error Address :=
  match alGet s.owners id with
  | some owner => .ok owner
  | none => .error .TokenDoesNotExist

/-- `token_exists` (storage.rs lines 23-26): checks the owner key only. -/
def token_exists (s : ContractState) (id : TokenId) : Bool :=
  (alGet s.owners id).isSome

/-- `save_token_metadata` (storage.rs lines 28-31): unconditional write. -/
def save_token_metadata (s : ContractState) (id : TokenId) (m : Metadata) : ContractState :=
  { s with metas := alSet s.metas id m }

/-- `get_token_metadata` (storage.rs lines 33-43). -/
def get_token_metadata (s : ContractState) (id : TokenId) : Except Error Metadata :=
  match alGet s.metas id with
  | some m => .ok m
  | none => .error .TokenDoesNotExist

/-- `index_user_achievement` (storage.rs lines 44-56): append to the user's list
(a missing map / missing entry reads as empty). -/
def index_user_achievement (s : ContractState) (user : Address) (id : TokenId) : ContractState :=
  let list := (alGet s.userAchievements user).getD []
  { s with userAchievements := alSet s.userAchievements user (list ++ [id]) }

/-- `remove_user_achievement_index` (storage.rs lines 58-80): rebuilds the
user's list keeping every element different from `id`; does nothing when the
user has no list. -/
def remove_user_achievement_index (s : ContractState) (user : Address) (id : TokenId) :
    ContractState :=
  match alGet s.userAchievements user with
  | none => s
  | some list =>
      { s with userAchievements := alSet s.userAchievements user (list.filter (fun v => v ≠ id)) }

/-- `get_user_achievements` (storage.rs lines 82-92). -/
def get_user_achievements (s : ContractState) (user : Address) : List TokenId :=
  (alGet s.userAchievements user).getD []

/-- `burn_token` (storage.rs lines 94-99): removes owner and metadata entries. -/
def burn_token (s : ContractState) (id : TokenId) : ContractState :=
  { s with owners := alRemove s.owners id, metas := alRemove s.metas id }

/-- `save_admin` (storage.rs lines 109-112): unconditional overwrite. -/
def save_admin (s : ContractState) (admin : Address) : ContractState :=
  { s with admin := some admin }

/-- `is_admin` (storage.rs lines 119-122); `get_admin` unwraps, so an unset
admin can never compare equal. -/
def is_admin (s : ContractState) (a : Address) : Bool :=
  s.admin = some a

/-- `add_minter` (storage.rs lines 124-129): `minters.set(minter, true)`. -/
def add_minter_store (s : ContractState) (m : Address) : ContractState :=
  { s with minters := alSet s.minters m true }

/-- `remove_minter` (storage.rs lines 131-136). -/
def remove_minter_store (s : ContractState) (m : Address) : ContractState :=
  { s with minters := alRemove s.minters m }

/-- `is_minter` (storage.rs lines 138-141): `contains_key`. -/
def is_minter (s : ContractState) (a : Address) : Bool :=
  (alGet s.minters a).isSome

/-- `next_token_id` (storage.rs lines 160-166): read (default 0), increment,
persist, return the new value. -/
def next_token_id (s : ContractState) : TokenId × ContractState :=
  (s.counter + 1, { s with counter := s.counter + 1 })

/-- `update_achievement_stats` (storage.rs lines 169-179): increment the
per-category issuance counter. -/
def update_achievement_stats (s : ContractState) (ty : AchievementType) : ContractState :=
  let c := (alGet s.achievementStats ty).getD 0
  { s with achievementStats := alSet s.achievementStats ty (c + 1) }

/-- `get_achievement_stats` (storage.rs lines 181-186). -/
def get_achievement_stats (s : ContractState) : List (AchievementType × Nat) :=
  s.achievementStats

/-- `update_leaderboard` (storage.rs lines 189-199): snapshot the length of the
user's achievement list. -/
def update_leaderboard (s : ContractState) (user : Address) : ContractState :=
  { s with leaderboard := alSet s.leaderboard user (get_user_achievements s user).length }

/-- `get_leaderboard` (storage.rs lines 201-206). -/
def get_leaderboard (s : ContractState) : List (Address × Nat) :=
  s.leaderboard

/-- `get_user_rank` (storage.rs lines 208-219): 1 + number of leaderboard
entries whose score strictly exceeds the user's score (absent user scores 0). -/
def get_user_rank (s : ContractState) (user : Address) : Nat :=
  let userScore := (alGet s.leaderboard user).getD 0
  s.leaderboard.foldl (fun rank e => if userScore < e.2 then rank + 1 else rank) 1

/-! ### access.rs / metadata.rs (absent from the sources; modelled from the spec) -/

/-- Modelled from the spec: `access.rs` is absent from the sources.
§4.2 `authorize_mint(caller)`: succeeds iff the caller is the administrator OR
is in the minter set (administrator bypass), else `Unauthorized`. -/
def check_minter (s : ContractState) (caller : Address) : Except Error Unit :=
  if is_minter s caller || is_admin s caller then .ok () else .error .Unauthorized

/-- Modelled from the spec: `access.rs` is absent from the sources.
§4.2 `authorize_owner_action`: the equality of caller and current owner is
checked by `transfer` itself (contract.rs line 105); what remains here is the
external caller-identity authentication collaborator, which is out of scope
(§1) and always succeeds in this model. -/
def check_owner (_s : ContractState) (_caller : Address) : Except Error Unit :=
  .ok ()

/-- Modelled from the spec: `metadata.rs` is absent from the sources.
§3/§4.3: metadata is overwritable in place (`reissue_metadata` has no failure
modes); every call site passes `Some achievement_type`. -/
def store_metadata (s : ContractState) (id : TokenId)
    (name description uri : String) (ty : AchievementType) : ContractState :=
  save_token_metadata s id ⟨name, description, uri, ty⟩

/-- Modelled from the spec: `access.rs` is absent from the sources.
§4.2 `add_minter(caller, target)`: requires `is_administrator(caller)` else
`Unauthorized`; idempotent set insertion (storage.rs `add_minter`). -/
def add_minter_access (s : ContractState) (caller m : Address) :
    Except Error Unit × ContractState :=
  if is_admin s caller then (.ok (), add_minter_store s m) else (.error .Unauthorized, s)

/-- Modelled from the spec: `access.rs` is absent from the sources.
§4.2 `remove_minter(caller, target)`: requires `is_administrator(caller)`. -/
def remove_minter_access (s : ContractState) (caller m : Address) :
    Except Error Unit × ContractState :=
  if is_admin s caller then (.ok (), remove_minter_store s m) else (.error .Unauthorized, s)

/-- Modelled from the spec: `access.rs` is absent from the sources.
§4.2 `transfer_administrator(caller, new_admin)`: requires
`is_administrator(caller)`; replaces the administrator value. -/
def transfer_admin_access (s : ContractState) (caller newAdmin : Address) :
    Except Error Unit × ContractState :=
  if is_admin s caller then (.ok (), save_admin s newAdmin) else (.error .Unauthorized, s)

/-! ### contract.rs — public entry points

Each returns `Except Error Unit × ContractState`; the state component holds the
writes committed before returning (errors in these functions all occur before
any write, except that `batch_mint`'s loop commits entry by entry). -/

/-- `init` (contract.rs lines 21-24). -/
def init (admin : Address) (s : ContractState) : Except Error Unit × ContractState :=
  (.ok (), save_admin s admin)

/-- `mint` (contract.rs lines 26-53): explicit-id mint, category `Standard`. -/
def mint (caller toA : Address) (token_id : TokenId) (name description uri : String)
    (s : ContractState) : Except Error Unit × ContractState :=
  match check_minter s caller with
  | .error e => (.error e, s)
  | .ok _ =>
      if token_exists s token_id then (.error .TokenAlreadyExists, s)
      else
        let s1 := save_token_owner s token_id toA
        let s2 := store_metadata s1 token_id name description uri .Standard
        let s3 := index_user_achievement s2 toA token_id
        let s4 := update_achievement_stats s3 .Standard
        (.ok (), s4)

/-- `mint_achv` (contract.rs lines 55-98): auto-id mint, category
`ProjectMilestone`; unknown tags fall back to a generic description. -/
def mint_achv (caller toA : Address) (nft_type : String) (s : ContractState) :
    Except Error Unit × ContractState :=
  match check_minter s caller with
  | .error e => (.error e, s)
  | .ok _ =>
      let (token_id, s1) := next_token_id s
      let nameDescUri : String × String × String :=
        if nft_type = "tencontr" then
          ("10 Completed Contracts", "Awarded for completing 10 contracts successfully.",
           "ipfs://10-completed-contracts")
        else if nft_type = "5stars5x" then
          ("5 Stars 5 Times", "Awarded for receiving five 5-star reviews.",
           "ipfs://5-stars-5-times")
        else if nft_type = "toprated" then
          ("Top Rated Freelancer", "Awarded for being a top-rated freelancer.",
           "ipfs://top-rated-freelancer")
        else
          ("Achievement NFT", "Awarded for a special achievement.",
           "ipfs://achievement-generic")
      let s2 := save_token_owner s1 token_id toA
      let s3 := store_metadata s2 token_id nameDescUri.1 nameDescUri.2.1 nameDescUri.2.2
        .ProjectMilestone
      let s4 := index_user_achievement s3 toA token_id
      let s5 := update_achievement_stats s4 .ProjectMilestone
      (.ok (), s5)

/-- `transfer` (contract.rs lines 100-137). -/
def transfer (frm toA : Address) (token_id : TokenId) (s : ContractState) :
    Except Error Unit × ContractState :=
  match get_token_owner s token_id with
  | .error e => (.error e, s)
  | .ok owner =>
      if owner ≠ frm then (.error .Unauthorized, s)
      else
        match check_owner s frm with
        | .error e => (.error e, s)
        | .ok _ =>
            match get_token_metadata s token_id with
            | .error e => (.error e, s)
            | .ok m =>
                match m.achievement_type with
                | .Standard | .CustomAchievement =>
                    let s1 := save_token_owner s token_id toA
                    let s2 := remove_user_achievement_index s1 frm token_id
                    let s3 := index_user_achievement s2 toA token_id
                    let s4 := update_leaderboard s3 frm
                    let s5 := update_leaderboard s4 toA
                    (.ok (), s5)
                | _ => (.error .NonTransferableToken, s)

/-- `get_owner` (contract.rs lines 139-141). -/
def get_owner (s : ContractState) (token_id : TokenId) : Except Error Address :=
  get_token_owner s token_id

/-- `get_metadata` (contract.rs lines 143-145). -/
def get_metadata (s : ContractState) (token_id : TokenId) : Except Error Metadata :=
  get_token_metadata s token_id

/-- `mint_rating_achievement` (contract.rs lines 168-233): auto-id mint,
category `RatingMilestone`; unknown type text falls back to a generic text. -/
def mint_rating_achievement (caller toA : Address) (achievement_type _rating_data : String)
    (s : ContractState) : Except Error Unit × ContractState :=
  match check_minter s caller with
  | .error e => (.error e, s)
  | .ok _ =>
      let (token_id, s1) := next_token_id s
      let nameDescUri : String × String × String :=
        if achievement_type = "first_five_star" then
          ("First Five Star Rating", "Awarded for receiving first 5-star rating",
           "ipfs://first-five-star")
        else if achievement_type = "ten_ratings" then
          ("Ten Ratings Milestone", "Awarded for receiving 10 ratings", "ipfs://ten-ratings")
        else if achievement_type = "top_rated_professional" then
          ("Top Rated Professional", "Awarded for maintaining excellent ratings",
           "ipfs://top-rated-pro")
        else if achievement_type = "rating_consistency" then
          ("Consistency Master", "Awarded for consistent high-quality ratings",
           "ipfs://consistency-master")
        else
          ("Rating Achievement", "Special rating-based achievement", "ipfs://rating-achievement")
      let s2 := save_token_owner s1 token_id toA
      let s3 := store_metadata s2 token_id nameDescUri.1 nameDescUri.2.1 nameDescUri.2.2
        .RatingMilestone
      let s4 := index_user_achievement s3 toA token_id
      let s5 := update_achievement_stats s4 .RatingMilestone
      (.ok (), s5)

/-- `burn` (contract.rs lines 239-248). -/
def burn (caller : Address) (token_id : TokenId) (s : ContractState) :
    Except Error Unit × ContractState :=
  match check_minter s caller with
  | .error e => (.error e, s)
  | .ok _ =>
      match get_token_owner s token_id with
      | .error e => (.error e, s)
      | .ok owner =>
          let s1 := remove_user_achievement_index s owner token_id
          (.ok (), burn_token s1 token_id)

/-- One iteration body of the `while` loop of `batch_mint` (contract.rs lines
264-283), for an entry whose four components were successfully fetched. -/
def batch_entry (s : ContractState) (e : Address × String × String × String) : ContractState :=
  let (token_id, s1) := next_token_id s
  let s2 := save_token_owner s1 token_id e.1
  let s3 := store_metadata s2 token_id e.2.1 e.2.2.1 e.2.2.2 .Standard
  let s4 := index_user_achievement s3 e.1 token_id
  update_achievement_stats s4 .Standard

/-- The `while i < len` loop of `batch_mint` (contract.rs lines 263-283):
fetches the four components at index `i` (a missing one aborts with
`TokenDoesNotExist`, keeping the writes of earlier iterations), processes the
entry, continues with `i + 1`. -/
def batch_loop (tos : List Address) (names descriptions uris : List String)
    (i : Nat) (s : ContractState) : Except Error Unit × ContractState :=
  if _h : i < tos.length then
    match tos.get? i, names.get? i, descriptions.get? i, uris.get? i with
    | some toA, some name, some description, some uri =>
        batch_loop tos names descriptions uris (i + 1) (batch_entry s (toA, name, description, uri))
    | _, _, _, _ => (.error .TokenDoesNotExist, s)
  else (.ok (), s)
termination_by tos.length - i

/-- `batch_mint` (contract.rs lines 250-286). -/
def batch_mint (caller : Address) (tos : List Address) (names descriptions uris : List String)
    (s : ContractState) : Except Error Unit × ContractState :=
  match check_minter s caller with
  | .error e => (.error e, s)
  | .ok _ =>
      let len := tos.length
      if names.length ≠ len ∨ descriptions.length ≠ len ∨ uris.length ≠ len then
        (.error .Unauthorized, s)
      else batch_loop tos names descriptions uris 0 s

/-- `store_reputation_score` (contract.rs lines 325-332): full overwrite of the
subject's (average, count, timestamp) row. -/
def store_reputation_score (s : ContractState) (user : Address) (rating_average total_ratings : Nat) :
    ContractState :=
  { s with reputation := alSet s.reputation user (rating_average, total_ratings, s.now) }

/-- The name/description/uri table of `mint_milestone_nft` (contract.rs lines
368-385); `none` models the `_ => return Ok(())` fallthrough. -/
def milestoneText : String → Option (String × String × String)
  | "ten_excellent" =>
      some ("Excellence Milestone", "Awarded for 10+ excellent ratings",
        "ipfs://excellence-milestone")
  | "top_rated_pro" =>
      some ("Top Rated Professional", "Awarded for exceptional rating performance",
        "ipfs://top-rated-professional")
  | "veteran_pro" =>
      some ("Veteran Professional", "Awarded for long-term excellent performance",
        "ipfs://veteran-professional")
  | _ => none

/-- `mint_milestone_nft` (contract.rs lines 362-402): writes owner, metadata
(category `RatingMilestone`), index and stats; unknown milestone types are
skipped without error. -/
def mint_milestone_nft (user : Address) (token_id : TokenId) (milestone_type : String)
    (s : ContractState) : Except Error Unit × ContractState :=
  match milestoneText milestone_type with
  | none => (.ok (), s)
  | some ndu =>
      let s1 := save_token_owner s token_id user
      let s2 := store_metadata s1 token_id ndu.1 ndu.2.1 ndu.2.2 .RatingMilestone
      let s3 := index_user_achievement s2 user token_id
      (.ok (), update_achievement_stats s3 .RatingMilestone)

/-- First threshold rule of `check_rating_achievements` (contract.rs lines
341-345): `total_ratings == 10 && rating_average >= 400` awards
"ten_excellent" with a fresh id. -/
def rating_rule1 (user : Address) (rating_average total_ratings : Nat) (s : ContractState) :
    Except Error Unit × ContractState :=
  if total_ratings = 10 ∧ 400 ≤ rating_average then
    let (token_id, s') := next_token_id s
    mint_milestone_nft user token_id "ten_excellent" s'
  else (.ok (), s)

/-- Second threshold rule (contract.rs lines 347-351):
`rating_average >= 480 && total_ratings >= 20` awards "top_rated_pro". -/
def rating_rule2 (user : Address) (rating_average total_ratings : Nat) (s : ContractState) :
    Except Error Unit × ContractState :=
  if 480 ≤ rating_average ∧ 20 ≤ total_ratings then
    let (token_id, s') := next_token_id s
    mint_milestone_nft user token_id "top_rated_pro" s'
  else (.ok (), s)

/-- Third threshold rule (contract.rs lines 353-357):
`total_ratings >= 50 && rating_average >= 450` awards "veteran_pro". -/
def rating_rule3 (user : Address) (rating_average total_ratings : Nat) (s : ContractState) :
    Except Error Unit × ContractState :=
  if 50 ≤ total_ratings ∧ 450 ≤ rating_average then
    let (token_id, s') := next_token_id s
    mint_milestone_nft user token_id "veteran_pro" s'
  else (.ok (), s)

/-- `check_rating_achievements` (contract.rs lines 334-360): the three
independent threshold rules in program order, each `?`-propagating its error
while keeping the writes already performed. -/
def check_rating_achievements (user : Address) (rating_average total_ratings : Nat)
    (s : ContractState) : Except Error Unit × ContractState :=
  match rating_rule1 user rating_average total_ratings s with
  | (.error e, s1) => (.error e, s1)
  | (.ok _, s1) =>
      match rating_rule2 user rating_average total_ratings s1 with
      | (.error e, s2) => (.error e, s2)
      | (.ok _, s2) => rating_rule3 user rating_average total_ratings s2

/-- `update_reputation_score` (contract.rs lines 288-307). -/
def update_reputation_score (caller user : Address) (rating_average total_ratings : Nat)
    (s : ContractState) : Except Error Unit × ContractState :=
  match check_minter s caller with
  | .error e => (.error e, s)
  | .ok _ =>
      match check_rating_achievements user rating_average total_ratings
          (store_reputation_score s user rating_average total_ratings) with
      | (.error e, s2) => (.error e, s2)
      | (.ok _, s2) => (.ok (), update_leaderboard s2 user)

/-- `get_user_achievement_rank` (contract.rs lines 318-320). -/
def get_user_achievement_rank (s : ContractState) (user : Address) : Nat :=
  get_user_rank s user

/-! ### Operation alphabet and reachability -/

/-- One public state-mutating entry point with its arguments. -/
inductive Op where
  | opInit (admin : Address)
  | opMint (caller toA : Address) (token_id : TokenId) (name description uri : String)
  | opMintAchv (caller toA : Address) (nft_type : String)
  | opMintRating (caller toA : Address) (achievement_type rating_data : String)
  | opTransfer (frm toA : Address) (token_id : TokenId)
  | opBurn (caller : Address) (token_id : TokenId)
  | opBatchMint (caller : Address) (tos : List Address) (names descriptions uris : List String)
  | opUpdateScore (caller user : Address) (rating_average total_ratings : Nat)
  | opAddMinter (caller m : Address)
  | opRemoveMinter (caller m : Address)
  | opTransferAdmin (caller newAdmin : Address)
deriving Repr

/-- Run one entry point, returning its result and the storage state it leaves
behind. -/
def runOp : Op → ContractState → Except Error Unit × ContractState
  | .opInit admin, s => init admin s
  | .opMint caller toA token_id name description uri, s =>
      mint caller toA token_id name description uri s
  | .opMintAchv caller toA nft_type, s => mint_achv caller toA nft_type s
  | .opMintRating caller toA ty rd, s => mint_rating_achievement caller toA ty rd s
  | .opTransfer frm toA token_id, s => transfer frm toA token_id s
  | .opBurn caller token_id, s => burn caller token_id s
  | .opBatchMint caller tos names descriptions uris, s =>
      batch_mint caller tos names descriptions uris s
  | .opUpdateScore caller user avg total, s => update_reputation_score caller user avg total s
  | .opAddMinter caller m, s => add_minter_access s caller m
  | .opRemoveMinter caller m, s => remove_minter_access s caller m
  | .opTransferAdmin caller newAdmin, s => transfer_admin_access s caller newAdmin

/-- The storage state after an operation (whatever the result, the storage
keeps exactly the writes the operation performed). -/
def exec (o : Op) (s : ContractState) : ContractState :=
  (runOp o s).2

/-- Fold a list of operations over a starting state. -/
def execList (ops : List Op) (s : ContractState) : ContractState :=
  ops.foldl (fun t o => exec o t) s

/-- A state is reachable when some sequence of public operations produces it
from the fresh contract instance. -/
def Reachable (s : ContractState) : Prop :=
  ∃ ops : List Op, s = execList ops initState

/-- A record id has its owner entry exactly when it has its metadata entry. -/
def Paired (s : ContractState) : Prop :=
  ∀ id : TokenId, (alGet s.owners id).isSome = (alGet s.metas id).isSome

/-- Admin 0 initializes, then mints token 5 (category Standard) to address 1
(id 5 is ahead of the auto-id counter, which is still 0 afterwards). -/
def demoOps : List Op := [.opInit 0, .opMint 0 1 5 "n" "d" "u"]

def demoS0 : ContractState := execList [.opInit 0] initState

def demoS1 : ContractState := execList demoOps initState

/-- Ops extending the demo run with a non-transferable `ProjectMilestone`
record: token 1 (the counter was still 0) is auto-issued to address 3 by
`mint_achv`. -/
def demoOps2 : List Op := demoOps ++ [.opMintAchv 0 3 "x"]

def demoS2 : ContractState := execList demoOps2 initState

/-- The ids handed out by `n` successive calls of `next_token_id` from a given
state (every auto-issuance path draws its id from exactly this source). -/
def nextIds : ContractState → Nat → List TokenId
  | _, 0 => []
  | s, n + 1 =>
      let p := next_token_id s
      p.1 :: nextIds p.2 n

/-- A two-entry leaderboard used to instantiate C7. -/
def c7S : ContractState := { initState with leaderboard := [(1, 2), (2, 1)] }

/-- The metadata row written by the "ten_excellent" milestone. -/
def msTen : Metadata :=
  ⟨"Excellence Milestone", "Awarded for 10+ excellent ratings", "ipfs://excellence-milestone",
    .RatingMilestone⟩

/-- Operation sequence whose final transfer violates the original C4 claim:
admin 0 mints id 2 explicitly to address 1 (counter stays 0), then two batch
mints auto-issue ids 1 and 2 to address 2 — the second silently overwrites
record 2 while address 1's index still lists it.  Transferring record 2 from
its current owner 2 back to address 1 then appends a second copy of id 2 to
address 1's index list. -/
def c4Ops : List Op :=
  [.opInit 0, .opMint 0 1 2 "n" "d" "u",
   .opBatchMint 0 [2] ["a"] ["b"] ["c"], .opBatchMint 0 [2] ["a"] ["b"] ["c"]]

def c4Pre : ContractState := execList c4Ops initState

/-- The four input columns of a batch, zipped into entries in index order. -/
def zip4 (tos : List Address) (names descriptions uris : List String) :
    List (Address × String × String × String) :=
  tos.zip (names.zip (descriptions.zip uris))

def c4A : ContractState := exec (.opInit 0) initState

def c4B : ContractState := exec (.opMint 0 1 2 "n" "d" "u") c4A

def c4C : ContractState := List.foldl batch_entry c4B (zip4 [2] ["a"] ["b"] ["c"])

def c4D : ContractState := List.foldl batch_entry c4C (zip4 [2] ["a"] ["b"] ["c"])

/-- The first three operations of the C4 scenario: explicit mint of id 2 to
address 1, then one batch mint auto-issuing id 1 to address 2. -/
def c10Ops : List Op :=
  [.opInit 0, .opMint 0 1 2 "n" "d" "u", .opBatchMint 0 [2] ["a"] ["b"] ["c"]]

/-! ### Association-list lemmas -/

theorem alGet_alSet {α β : Type} [DecidableEq α] (l : List (α × β)) (k k' : α) (v : β) :
    alGet (alSet l k v) k' = if k = k' then some v else alGet l k' := by
  induction l with
  | nil =>
      simp only [alSet, alGet]
  | cons e t ih =>
      rcases e with ⟨a, b⟩
      by_cases he : a = k
      · subst he
        by_cases h : a = k' <;> simp [alSet, alGet, h]
      · by_cases h : k = k'
        · subst h
          simp [alSet, alGet, he, ih, Ne.symm he]
        · by_cases he' : a = k'
          · subst he'
            simp [alSet, alGet, he, Ne.symm h, ih, h]
          · simp [alSet, alGet, he, he', ih, h]

theorem alGet_alRemove {α β : Type} [DecidableEq α] (l : List (α × β)) (k k' : α) :
    alGet (alRemove l k) k' = if k = k' then none else alGet l k' := by
  induction l with
  | nil =>
      simp [alRemove, alGet]
  | cons e t ih =>
      rcases e with ⟨a, b⟩
      by_cases he : a = k
      · subst he
        by_cases h : a = k'
        · subst h
          simp [alRemove, ih]
        · simp [alRemove, alGet, h, ih]
      · by_cases h : k = k'
        · subst h
          simp [alRemove, alGet, he, ih, Ne.symm he]
        · by_cases he' : a = k'
          · subst he'
            simp [alRemove, alGet, he, Ne.symm h, ih, h]
          · simp [alRemove, alGet, he, he', ih, h]

theorem mem_of_alGet_eq_some {α β : Type} [DecidableEq α] {l : List (α × β)} {k : α} {v : β}
    (h : alGet l k = some v) : (k, v) ∈ l := by
  induction l with
  | nil => simp [alGet] at h
  | cons e t ih =>
      rcases e with ⟨a, b⟩
      by_cases he : a = k
      · subst he
        simp [alGet] at h
        subst h
        exact List.mem_cons_self _ _
      · simp [alGet, he] at h
        exact List.mem_cons_of_mem _ (ih h)

/-! ### Projection lemmas for `remove_user_achievement_index` (both match
branches leave every field except the achievement index unchanged) -/

@[simp] theorem remove_index_owners (s : ContractState) (u : Address) (id : TokenId) :
    (remove_user_achievement_index s u id).owners = s.owners := by
  unfold remove_user_achievement_index
  cases alGet s.userAchievements u <;> rfl

@[simp] theorem remove_index_metas (s : ContractState) (u : Address) (id : TokenId) :
    (remove_user_achievement_index s u id).metas = s.metas := by
  unfold remove_user_achievement_index
  cases alGet s.userAchievements u <;> rfl

@[simp] theorem remove_index_counter (s : ContractState) (u : Address) (id : TokenId) :
    (remove_user_achievement_index s u id).counter = s.counter := by
  unfold remove_user_achievement_index
  cases alGet s.userAchievements u <;> rfl

@[simp] theorem remove_index_admin (s : ContractState) (u : Address) (id : TokenId) :
    (remove_user_achievement_index s u id).admin = s.admin := by
  unfold remove_user_achievement_index
  cases alGet s.userAchievements u <;> rfl

@[simp] theorem remove_index_minters (s : ContractState) (u : Address) (id : TokenId) :
    (remove_user_achievement_index s u id).minters = s.minters := by
  unfold remove_user_achievement_index
  cases alGet s.userAchievements u <;> rfl

@[simp] theorem remove_index_leaderboard (s : ContractState) (u : Address) (id : TokenId) :
    (remove_user_achievement_index s u id).leaderboard = s.leaderboard := by
  unfold remove_user_achievement_index
  cases alGet s.userAchievements u <;> rfl

/-! ### The pairing invariant (claim C1) -/

theorem paired_initState : Paired initState := by
  intro id
  rfl

/-- Writing the owner entry and the metadata entry of the same id together
preserves the pairing. -/
theorem paired_write_pair {s : ContractState} (h : Paired s) (id : TokenId) (o : Address)
    (m : Metadata) :
    Paired { s with owners := alSet s.owners id o, metas := alSet s.metas id m } := by
  intro id'
  simp only [alGet_alSet]
  by_cases hid : id = id' <;> simp [hid, h id']

theorem paired_mint {s : ContractState} (h : Paired s) (caller toA : Address) (tid : TokenId)
    (n d u : String) : Paired (mint caller toA tid n d u s).2 := by
  unfold mint
  cases hc : check_minter s caller with
  | error e => exact h
  | ok _ =>
      by_cases hex : token_exists s tid
      · simp only [hex]
        exact h
      · simp only [hex, Bool.false_eq_true, if_false]
        intro id'
        simp only [update_achievement_stats, index_user_achievement, store_metadata,
          save_token_metadata, save_token_owner, alGet_alSet]
        by_cases hid : tid = id' <;> simp [hid, h id']

theorem paired_mint_achv {s : ContractState} (h : Paired s) (caller toA : Address)
    (tag : String) : Paired (mint_achv caller toA tag s).2 := by
  unfold mint_achv
  cases hc : check_minter s caller with
  | error e => exact h
  | ok _ =>
      intro id'
      simp only [next_token_id, update_achievement_stats, index_user_achievement,
        store_metadata, save_token_metadata, save_token_owner, alGet_alSet]
      by_cases hid : s.counter + 1 = id' <;> simp [hid, h id']

theorem paired_mint_rating {s : ContractState} (h : Paired s) (caller toA : Address)
    (ty rd : String) : Paired (mint_rating_achievement caller toA ty rd s).2 := by
  unfold mint_rating_achievement
  cases hc : check_minter s caller with
  | error e => exact h
  | ok _ =>
      intro id'
      simp only [next_token_id, update_achievement_stats, index_user_achievement,
        store_metadata, save_token_metadata, save_token_owner, alGet_alSet]
      by_cases hid : s.counter + 1 = id' <;> simp [hid, h id']

theorem paired_transfer {s : ContractState} (h : Paired s) (frm toA : Address)
    (tid : TokenId) : Paired (transfer frm toA tid s).2 := by
  unfold transfer
  have howner : ∀ owner, get_token_owner s tid = Except.ok owner →
      (alGet s.owners tid).isSome = true := by
    intro owner ho
    unfold get_token_owner at ho
    cases hg : alGet s.owners tid <;> rw [hg] at ho <;> simp_all
  split
  · exact h
  next owner ho =>
    split
    · exact h
    next hfrm =>
      simp only [check_owner]
      split
      · exact h
      next m hm =>
        have hw := howner owner ho
        split
        case _ | _ =>
          intro id'
          simp only [update_leaderboard, index_user_achievement, remove_index_owners,
            remove_index_metas, save_token_owner, alGet_alSet, get_user_achievements]
          by_cases hid : tid = id'
          · subst hid
            simp [← h tid, hw]
          · simp [hid, h id']
        · exact h

theorem paired_burn {s : ContractState} (h : Paired s) (caller : Address)
    (tid : TokenId) : Paired (burn caller tid s).2 := by
  unfold burn
  cases hc : check_minter s caller with
  | error e => exact h
  | ok _ =>
      cases ho : get_token_owner s tid with
      | error e => exact h
      | ok owner =>
          intro id'
          simp only [burn_token, remove_index_owners, remove_index_metas, alGet_alRemove]
          by_cases hid : tid = id' <;> simp [hid, h id']

theorem paired_batch_entry {s : ContractState} (h : Paired s)
    (e : Address × String × String × String) : Paired (batch_entry s e) := by
  intro id'
  simp only [batch_entry, next_token_id, update_achievement_stats, index_user_achievement,
    store_metadata, save_token_metadata, save_token_owner, alGet_alSet]
  by_cases hid : s.counter + 1 = id' <;> simp [hid, h id']

theorem paired_batch_loop {tos : List Address} {names descriptions uris : List String} :
    ∀ i s, Paired s → Paired (batch_loop tos names descriptions uris i s).2 := by
  intro i s
  induction i, s using batch_loop.induct tos names descriptions uris with
  | case1 i s hlt toA nm dsc ur h4 h3 h2 h1 ih =>
      intro h
      rw [batch_loop, dif_pos hlt, h1, h2, h3, h4]
      exact ih (paired_batch_entry h _)
  | case2 i s hlt hfalse =>
      intro h
      rw [batch_loop, dif_pos hlt]
      rcases hg1 : tos.get? i with _ | toA <;>
        rcases hg2 : names.get? i with _ | nm <;>
        rcases hg3 : descriptions.get? i with _ | dsc <;>
        rcases hg4 : uris.get? i with _ | ur <;>
        simp only [hg1, hg2, hg3, hg4] <;>
        first
          | exact h
          | exact (hfalse _ _ _ _ hg1 hg2 hg3 hg4).elim
  | case3 i s hge =>
      intro h
      rw [batch_loop, dif_neg hge]
      exact h

theorem paired_batch_mint {s : ContractState} (h : Paired s) (caller : Address)
    (tos : List Address) (names descriptions uris : List String) :
    Paired (batch_mint caller tos names descriptions uris s).2 := by
  unfold batch_mint
  cases hc : check_minter s caller with
  | error e => exact h
  | ok _ =>
      by_cases hlen : names.length ≠ tos.length ∨ descriptions.length ≠ tos.length ∨
          uris.length ≠ tos.length
      · simp only [hlen, if_true]
        exact h
      · simp only [hlen, if_false]
        exact paired_batch_loop 0 s h

theorem paired_mint_milestone {s : ContractState} (h : Paired s) (user : Address)
    (tid : TokenId) (mt : String) : Paired (mint_milestone_nft user tid mt s).2 := by
  unfold mint_milestone_nft
  cases hm : milestoneText mt with
  | none => exact h
  | some ndu =>
      intro id'
      simp only [update_achievement_stats, index_user_achievement, store_metadata,
        save_token_metadata, save_token_owner, alGet_alSet]
      by_cases hid : tid = id' <;> simp [hid, h id']

theorem paired_next_token_id {s : ContractState} (h : Paired s) :
    Paired (next_token_id s).2 := by
  intro id
  exact h id

theorem paired_rating_rule1 {s : ContractState} (h : Paired s) (user : Address)
    (avg total : Nat) : Paired (rating_rule1 user avg total s).2 := by
  unfold rating_rule1
  split
  · exact paired_mint_milestone (paired_next_token_id h) user _ _
  · exact h

theorem paired_rating_rule2 {s : ContractState} (h : Paired s) (user : Address)
    (avg total : Nat) : Paired (rating_rule2 user avg total s).2 := by
  unfold rating_rule2
  split
  · exact paired_mint_milestone (paired_next_token_id h) user _ _
  · exact h

theorem paired_rating_rule3 {s : ContractState} (h : Paired s) (user : Address)
    (avg total : Nat) : Paired (rating_rule3 user avg total s).2 := by
  unfold rating_rule3
  split
  · exact paired_mint_milestone (paired_next_token_id h) user _ _
  · exact h

theorem paired_check_rating {s : ContractState} (h : Paired s) (user : Address)
    (avg total : Nat) : Paired (check_rating_achievements user avg total s).2 := by
  unfold check_rating_achievements
  split
  next e s1 heq =>
      have := paired_rating_rule1 h user avg total
      rw [heq] at this
      exact this
  next a s1 heq =>
      have hs1 : Paired s1 := by
        have := paired_rating_rule1 h user avg total
        rwa [heq] at this
      split
      next e s2 heq2 =>
          have := paired_rating_rule2 hs1 user avg total
          rw [heq2] at this
          exact this
      next a2 s2 heq2 =>
          have hs2 : Paired s2 := by
            have := paired_rating_rule2 hs1 user avg total
            rwa [heq2] at this
          exact paired_rating_rule3 hs2 user avg total

theorem paired_update_score {s : ContractState} (h : Paired s) (caller user : Address)
    (avg total : Nat) : Paired (update_reputation_score caller user avg total s).2 := by
  unfold update_reputation_score
  split
  · exact h
  next a hc =>
      have hstore : Paired (store_reputation_score s user avg total) := by
        intro id
        exact h id
      split
      next e s1 heq =>
          have := paired_check_rating hstore user avg total
          rw [heq] at this
          exact this
      next a2 s1 heq =>
          have hs1 : Paired s1 := by
            have := paired_check_rating hstore user avg total
            rwa [heq] at this
          intro id
          exact hs1 id

theorem paired_exec {s : ContractState} (h : Paired s) (o : Op) : Paired (exec o s) := by
  cases o with
  | opInit admin =>
      intro id
      exact h id
  | opMint caller toA token_id name description uri =>
      exact paired_mint h caller toA token_id name description uri
  | opMintAchv caller toA nft_type => exact paired_mint_achv h caller toA nft_type
  | opMintRating caller toA ty rd => exact paired_mint_rating h caller toA ty rd
  | opTransfer frm toA token_id => exact paired_transfer h frm toA token_id
  | opBurn caller token_id => exact paired_burn h caller token_id
  | opBatchMint caller tos names descriptions uris =>
      exact paired_batch_mint h caller tos names descriptions uris
  | opUpdateScore caller user avg total => exact paired_update_score h caller user avg total
  | opAddMinter caller m =>
      show Paired (add_minter_access s caller m).2
      unfold add_minter_access
      split <;> intro id <;> exact h id
  | opRemoveMinter caller m =>
      show Paired (remove_minter_access s caller m).2
      unfold remove_minter_access
      split <;> intro id <;> exact h id
  | opTransferAdmin caller newAdmin =>
      show Paired (transfer_admin_access s caller newAdmin).2
      unfold transfer_admin_access
      split <;> intro id <;> exact h id

theorem paired_execList : ∀ (ops : List Op) (s : ContractState), Paired s →
    Paired (execList ops s) := by
  intro ops
  induction ops with
  | nil =>
      intro s h
      exact h
  | cons o t ih =>
      intro s h
      have : execList (o :: t) s = execList t (exec o s) := rfl
      rw [this]
      exact ih _ (paired_exec h o)

theorem paired_reachable {s : ContractState} (h : Reachable s) : Paired s := by
  obtain ⟨ops, rfl⟩ := h
  exact paired_execList ops initState paired_initState

/-! ### Success characterizations used by several claims -/

theorem isOk_get_token_owner (s : ContractState) (id : TokenId) :
    (get_token_owner s id).isOk = (alGet s.owners id).isSome := by
  unfold get_token_owner
  cases alGet s.owners id <;> rfl

theorem isOk_get_token_metadata (s : ContractState) (id : TokenId) :
    (get_token_metadata s id).isOk = (alGet s.metas id).isSome := by
  unfold get_token_metadata
  cases alGet s.metas id <;> rfl

/-- A successful explicit-id `mint` leaves exactly the expected owner and
metadata entry for the minted id. -/
theorem mint_success {s s' : ContractState} {caller toA : Address} {id : TokenId}
    {n d u : String} (h : mint caller toA id n d u s = (.ok (), s')) :
    s'.owners = alSet s.owners id toA ∧
      s'.metas = alSet s.metas id ⟨n, d, u, .Standard⟩ := by
  unfold mint at h
  split at h
  · exact absurd h (by simp)
  · split at h
    · exact absurd h (by simp)
    · simp only [Prod.mk.injEq] at h
      obtain ⟨-, hs⟩ := h
      subst hs
      constructor <;> rfl

/-- A successful `burn` removes both the owner entry and the metadata entry. -/
theorem burn_success {s s' : ContractState} {caller : Address} {id : TokenId}
    (h : burn caller id s = (.ok (), s')) :
    s'.owners = alRemove s.owners id ∧ s'.metas = alRemove s.metas id := by
  unfold burn at h
  split at h
  · exact absurd h (by simp)
  · split at h
    · exact absurd h (by simp)
    · simp only [Prod.mk.injEq] at h
      obtain ⟨-, hs⟩ := h
      subst hs
      constructor <;> simp [burn_token]

/-! ### Demonstration states for the concrete witnesses -/

/-! ### Claim C1 -/

/-- C1: Pairing invariant.  In every reachable state, `get_owner(id)` succeeds
iff `get_metadata(id)` succeeds; a successful explicit `mint` writes both the
owner entry and the metadata entry of the minted id, and a successful `burn`
removes both.  (The auto-issuing paths `mint_achv`, `mint_rating_achievement`,
`batch_mint` and milestone auto-issuance also write both entries — that is
exactly what the reachability induction behind the first conjunct proves for
every operation of the `Op` alphabet.) -/
theorem C1_pairing_invariant :
    (∀ s : ContractState, Reachable s → ∀ id : TokenId,
        (get_owner s id).isOk = (get_metadata s id).isOk)
    ∧ (∀ (s s' : ContractState) (caller toA : Address) (id : TokenId) (n d u : String),
        mint caller toA id n d u s = (.ok (), s') →
          (get_owner s' id).isOk ∧ (get_metadata s' id).isOk)
    ∧ (∀ (s s' : ContractState) (caller : Address) (id : TokenId),
        burn caller id s = (.ok (), s') →
          (get_owner s' id).isOk = false ∧ (get_metadata s' id).isOk = false) := by
  refine ⟨?_, ?_, ?_⟩
  · intro s hs id
    have hp := paired_reachable hs id
    show (get_token_owner s id).isOk = (get_token_metadata s id).isOk
    rw [isOk_get_token_owner, isOk_get_token_metadata, hp]
  · intro s s' caller toA id n d u h
    obtain ⟨ho, hm⟩ := mint_success h
    constructor
    · show (get_token_owner s' id).isOk = true
      rw [isOk_get_token_owner, ho, alGet_alSet]
      simp
    · show (get_token_metadata s' id).isOk = true
      rw [isOk_get_token_metadata, hm, alGet_alSet]
      simp
  · intro s s' caller id h
    obtain ⟨ho, hm⟩ := burn_success h
    constructor
    · show (get_token_owner s' id).isOk = false
      rw [isOk_get_token_owner, ho, alGet_alRemove]
      simp
    · show (get_token_metadata s' id).isOk = false
      rw [isOk_get_token_metadata, hm, alGet_alRemove]
      simp

/-- Concrete instantiation of C1: the reachable state after
`[init 0, mint 0 1 1]`, with both a successful mint and a successful burn. -/
theorem C1_pairing_invariant_witness :
    ((get_owner demoS1 5).isOk = (get_metadata demoS1 5).isOk)
    ∧ ((get_owner demoS1 5).isOk ∧ (get_metadata demoS1 5).isOk)
    ∧ ((get_owner (exec (.opBurn 0 5) demoS1) 5).isOk = false
        ∧ (get_metadata (exec (.opBurn 0 5) demoS1) 5).isOk = false) :=
  ⟨C1_pairing_invariant.1 demoS1 ⟨demoOps, rfl⟩ 5,
   C1_pairing_invariant.2.1 demoS0 demoS1 0 1 5 "n" "d" "u" rfl,
   C1_pairing_invariant.2.2 demoS1 (exec (.opBurn 0 5) demoS1) 0 5 rfl⟩

/-! ### Claim C9 -/

/-- C9: `init` is unguarded — from every state it succeeds for any supplied
principal, performs no authorization check, and unconditionally overwrites the
stored administrator. -/
theorem C9_init_unguarded (s : ContractState) (admin : Address) :
    init admin s = (.ok (), save_admin s admin) ∧ (init admin s).2.admin = some admin :=
  ⟨rfl, rfl⟩

/-! ### Claim C3 -/

/-- C3: whenever the record has a current owner different from the `from`
argument, `transfer` fails with `Unauthorized` and leaves the state unchanged —
the report is `Unauthorized` (never `TokenDoesNotExist`) regardless of who the
mismatching owner is. -/
theorem C3_transfer_owner_mismatch (s : ContractState) (frm toA owner : Address)
    (id : TokenId) (hown : get_token_owner s id = .ok owner) (hne : owner ≠ frm) :
    transfer frm toA id s = (.error .Unauthorized, s) := by
  unfold transfer
  rw [hown]
  simp [hne]

/-- Concrete instantiation of C3: in `demoS1` token 5 is owned by address 1,
and a transfer whose `from` is address 2 is rejected as `Unauthorized`. -/
theorem C3_transfer_owner_mismatch_witness :
    transfer 2 3 5 demoS1 = (.error .Unauthorized, demoS1) :=
  C3_transfer_owner_mismatch demoS1 2 3 1 5 (by decide) (by decide)

/-! ### Claim C2 -/

/-- C2: transferability policy.  A record whose category is Reputation,
ProjectMilestone or RatingMilestone can never be transferred: when the true
owner initiates the transfer it is rejected with `NonTransferableToken`
(state unchanged, for every destination), and no caller whatsoever can make
the transfer succeed.  A record whose category is Standard or
CustomAchievement is transferred successfully by its true owner to any
destination, after which `get_owner` returns the new owner. -/
theorem C2_transfer_policy :
    (∀ (s : ContractState) (frm toA : Address) (id : TokenId) (m : Metadata),
        get_token_owner s id = .ok frm →
        get_token_metadata s id = .ok m →
        (m.achievement_type = .Reputation ∨ m.achievement_type = .ProjectMilestone ∨
          m.achievement_type = .RatingMilestone) →
        transfer frm toA id s = (.error .NonTransferableToken, s))
    ∧ (∀ (s : ContractState) (frm toA : Address) (id : TokenId) (m : Metadata),
        get_token_owner s id = .ok frm →
        get_token_metadata s id = .ok m →
        (m.achievement_type = .Standard ∨ m.achievement_type = .CustomAchievement) →
        (transfer frm toA id s).1 = .ok ()
          ∧ get_owner (transfer frm toA id s).2 id = .ok toA)
    ∧ (∀ (s : ContractState) (frm toA : Address) (id : TokenId) (m : Metadata),
        get_token_metadata s id = .ok m →
        (m.achievement_type = .Reputation ∨ m.achievement_type = .ProjectMilestone ∨
          m.achievement_type = .RatingMilestone) →
        (transfer frm toA id s).1 ≠ .ok ()) := by
  refine ⟨?_, ?_, ?_⟩
  · intro s frm toA id m hown hmeta hty
    unfold transfer
    rw [hown]
    simp only [check_owner, ne_eq, not_true_eq_false, if_false, hmeta]
    rcases hty with h | h | h <;> rw [h]
  · intro s frm toA id m hown hmeta hty
    unfold transfer
    rw [hown]
    simp only [check_owner, ne_eq, not_true_eq_false, if_false, hmeta]
    have hgoal : get_owner
        (update_leaderboard (update_leaderboard (index_user_achievement
          (remove_user_achievement_index (save_token_owner s id toA) frm id) toA id) frm) toA)
        id = .ok toA := by
      unfold get_owner get_token_owner
      simp [update_leaderboard, index_user_achievement, remove_index_owners,
        save_token_owner, alGet_alSet]
    rcases hty with h | h <;> rw [h] <;> exact ⟨rfl, hgoal⟩
  · intro s frm toA id m hmeta hty
    unfold transfer
    split
    · simp
    next owner ho =>
      split
      · simp
      next hfrm =>
        simp only [check_owner, hmeta]
        rcases hty with h | h | h <;> rw [h] <;> simp

/-- Concrete instantiation of C2: in `demoS2`, token 1 (ProjectMilestone,
owned by 3) cannot be transferred even by its owner (and by nobody else
either), while token 5 (Standard, owned by 1) transfers to address 2 and
`get_owner` then reports 2. -/
theorem C2_transfer_policy_witness :
    transfer 3 4 1 demoS2 = (.error .NonTransferableToken, demoS2)
    ∧ ((transfer 1 2 5 demoS2).1 = .ok ()
        ∧ get_owner (transfer 1 2 5 demoS2).2 5 = .ok 2)
    ∧ (transfer 9 4 1 demoS2).1 ≠ .ok () := by
  refine ⟨?_, ?_, ?_⟩
  · exact C2_transfer_policy.1 demoS2 3 4 1
      ⟨"Achievement NFT", "Awarded for a special achievement.", "ipfs://achievement-generic",
        .ProjectMilestone⟩ (by decide) (by decide) (Or.inr (Or.inl rfl))
  · exact C2_transfer_policy.2.1 demoS2 1 2 5 ⟨"n", "d", "u", .Standard⟩ (by decide) (by decide)
      (Or.inl rfl)
  · exact C2_transfer_policy.2.2 demoS2 9 4 1
      ⟨"Achievement NFT", "Awarded for a special achievement.", "ipfs://achievement-generic",
        .ProjectMilestone⟩ (by decide) (Or.inr (Or.inl rfl))

/-! ### Rule and score-update characterizations (claims C5, C6) -/

theorem milestoneText_ten : milestoneText "ten_excellent"
    = some ("Excellence Milestone", "Awarded for 10+ excellent ratings",
        "ipfs://excellence-milestone") := rfl

theorem milestoneText_top : milestoneText "top_rated_pro"
    = some ("Top Rated Professional", "Awarded for exceptional rating performance",
        "ipfs://top-rated-professional") := rfl

theorem milestoneText_vet : milestoneText "veteran_pro"
    = some ("Veteran Professional", "Awarded for long-term excellent performance",
        "ipfs://veteran-professional") := rfl

theorem rating_rule1_spec (user : Address) (avg total : Nat) (s : ContractState) :
    (rating_rule1 user avg total s).1 = .ok ()
    ∧ (rating_rule1 user avg total s).2.counter
        = (if total = 10 ∧ 400 ≤ avg then s.counter + 1 else s.counter)
    ∧ (rating_rule1 user avg total s).2.minters = s.minters
    ∧ (rating_rule1 user avg total s).2.admin = s.admin := by
  unfold rating_rule1
  split
  next h =>
    simp [mint_milestone_nft, milestoneText_ten, next_token_id, update_achievement_stats,
      index_user_achievement, store_metadata, save_token_metadata, save_token_owner]
  next h =>
    exact ⟨rfl, rfl, rfl, rfl⟩

theorem rating_rule2_spec (user : Address) (avg total : Nat) (s : ContractState) :
    (rating_rule2 user avg total s).1 = .ok ()
    ∧ (rating_rule2 user avg total s).2.counter
        = (if 480 ≤ avg ∧ 20 ≤ total then s.counter + 1 else s.counter)
    ∧ (rating_rule2 user avg total s).2.minters = s.minters
    ∧ (rating_rule2 user avg total s).2.admin = s.admin := by
  unfold rating_rule2
  split
  next h =>
    simp [mint_milestone_nft, milestoneText_top, next_token_id, update_achievement_stats,
      index_user_achievement, store_metadata, save_token_metadata, save_token_owner]
  next h =>
    exact ⟨rfl, rfl, rfl, rfl⟩

theorem rating_rule3_spec (user : Address) (avg total : Nat) (s : ContractState) :
    (rating_rule3 user avg total s).1 = .ok ()
    ∧ (rating_rule3 user avg total s).2.counter
        = (if 50 ≤ total ∧ 450 ≤ avg then s.counter + 1 else s.counter)
    ∧ (rating_rule3 user avg total s).2.minters = s.minters
    ∧ (rating_rule3 user avg total s).2.admin = s.admin := by
  unfold rating_rule3
  split
  next h =>
    simp [mint_milestone_nft, milestoneText_vet, next_token_id, update_achievement_stats,
      index_user_achievement, store_metadata, save_token_metadata, save_token_owner]
  next h =>
    exact ⟨rfl, rfl, rfl, rfl⟩

theorem check_rating_spec (user : Address) (avg total : Nat) (s : ContractState) :
    (check_rating_achievements user avg total s).1 = .ok ()
    ∧ (check_rating_achievements user avg total s).2.counter
        = s.counter + ((if total = 10 ∧ 400 ≤ avg then 1 else 0)
            + (if 480 ≤ avg ∧ 20 ≤ total then 1 else 0)
            + (if 50 ≤ total ∧ 450 ≤ avg then 1 else 0))
    ∧ (check_rating_achievements user avg total s).2.minters = s.minters
    ∧ (check_rating_achievements user avg total s).2.admin = s.admin := by
  rcases hr1 : rating_rule1 user avg total s with ⟨r1, s1⟩
  obtain ⟨h1r, h1c, h1m, h1a⟩ := rating_rule1_spec user avg total s
  simp only [hr1] at h1r h1c h1m h1a
  subst h1r
  rcases hr2 : rating_rule2 user avg total s1 with ⟨r2, s2⟩
  obtain ⟨h2r, h2c, h2m, h2a⟩ := rating_rule2_spec user avg total s1
  simp only [hr2] at h2r h2c h2m h2a
  subst h2r
  obtain ⟨h3r, h3c, h3m, h3a⟩ := rating_rule3_spec user avg total s2
  simp only [check_rating_achievements, hr1, hr2]
  refine ⟨h3r, ?_, ?_, ?_⟩
  · rw [h3c, h2c, h1c]
    by_cases c1 : total = 10 ∧ 400 ≤ avg <;>
      by_cases c2 : 480 ≤ avg ∧ 20 ≤ total <;>
      by_cases c3 : 50 ≤ total ∧ 450 ≤ avg <;>
      simp [c1, c2, c3]
  · rw [h3m, h2m, h1m]
  · rw [h3a, h2a, h1a]

/-- `check_minter` only looks at the minter set and the administrator. -/
theorem check_minter_congr {s s' : ContractState} (caller : Address)
    (hm : s'.minters = s.minters) (ha : s'.admin = s.admin) :
    check_minter s' caller = check_minter s caller := by
  unfold check_minter is_minter is_admin
  rw [hm, ha]

/-- Full characterization of `update_reputation_score` at
`rating_average = 400, total_ratings = 10` by an authorized caller: it
succeeds, assigns exactly one fresh id `counter+1`, writes its owner and
metadata (category `RatingMilestone`) for the subject, and leaves the minter
set and administrator unchanged. -/
theorem update_score_400_10_spec (s : ContractState) (caller user : Address)
    (hc : check_minter s caller = .ok ()) :
    (update_reputation_score caller user 400 10 s).1 = .ok ()
    ∧ (update_reputation_score caller user 400 10 s).2.owners
        = alSet s.owners (s.counter + 1) user
    ∧ (update_reputation_score caller user 400 10 s).2.metas
        = alSet s.metas (s.counter + 1) msTen
    ∧ (update_reputation_score caller user 400 10 s).2.counter = s.counter + 1
    ∧ (update_reputation_score caller user 400 10 s).2.minters = s.minters
    ∧ (update_reputation_score caller user 400 10 s).2.admin = s.admin := by
  unfold update_reputation_score
  simp only [hc]
  simp only [check_rating_achievements, rating_rule1, rating_rule2, rating_rule3]
  norm_num
  simp only [mint_milestone_nft, milestoneText_ten]
  simp [next_token_id, store_reputation_score, update_leaderboard, update_achievement_stats,
    index_user_achievement, store_metadata, save_token_metadata, save_token_owner,
    get_user_achievements, msTen]

/-- General characterization of `update_reputation_score` by an authorized
caller: it always succeeds, and the number of freshly consumed ids equals the
number of threshold rules that fire. -/
theorem update_score_spec (s : ContractState) (caller user : Address) (avg total : Nat)
    (hc : check_minter s caller = .ok ()) :
    (update_reputation_score caller user avg total s).1 = .ok ()
    ∧ (update_reputation_score caller user avg total s).2.counter
        = s.counter + ((if total = 10 ∧ 400 ≤ avg then 1 else 0)
            + (if 480 ≤ avg ∧ 20 ≤ total then 1 else 0)
            + (if 50 ≤ total ∧ 450 ≤ avg then 1 else 0))
    ∧ (update_reputation_score caller user avg total s).2.minters = s.minters
    ∧ (update_reputation_score caller user avg total s).2.admin = s.admin := by
  unfold update_reputation_score
  simp only [hc]
  rcases hcr : check_rating_achievements user avg total
      (store_reputation_score s user avg total) with ⟨r, s2⟩
  obtain ⟨hr, hcounter, hm, ha⟩ := check_rating_spec user avg total
    (store_reputation_score s user avg total)
  simp only [hcr] at hr hcounter hm ha
  subst hr
  simp only [hcr]
  exact ⟨trivial, hcounter, hm, ha⟩

/-! ### Claim C6 -/

theorem counter_batch_entry (s : ContractState) (e : Address × String × String × String) :
    (batch_entry s e).counter = s.counter + 1 := rfl

theorem counter_batch_loop {tos : List Address} {names descriptions uris : List String} :
    ∀ i s, s.counter ≤ (batch_loop tos names descriptions uris i s).2.counter := by
  intro i s
  induction i, s using batch_loop.induct tos names descriptions uris with
  | case1 i s hlt toA nm dsc ur h4g h3g h2g h1g ih =>
      rw [batch_loop, dif_pos hlt, h1g, h2g, h3g, h4g]
      show s.counter ≤ (batch_loop tos names descriptions uris (i + 1)
        (batch_entry s (toA, nm, dsc, ur))).2.counter
      have h1 : s.counter ≤ (batch_entry s (toA, nm, dsc, ur)).counter := Nat.le_succ _
      exact le_trans h1 ih
  | case2 i s hlt hfalse =>
      rw [batch_loop, dif_pos hlt]
      rcases hg1 : tos.get? i with _ | a <;>
        rcases hg2 : names.get? i with _ | b <;>
        rcases hg3 : descriptions.get? i with _ | c <;>
        rcases hg4 : uris.get? i with _ | d <;>
        simp only [hg1, hg2, hg3, hg4] <;>
        first
          | exact le_refl _
          | exact (hfalse a b c d hg1 hg2 hg3 hg4).elim
  | case3 i s hge =>
      rw [batch_loop, dif_neg hge]

/-- A helper for `exec_counter_mono`: an unauthorized `update_reputation_score`
returns immediately with the state unchanged. -/
theorem update_score_err {s : ContractState} {caller user : Address} {avg total : Nat}
    {e : Error} (hc : check_minter s caller = .error e) :
    update_reputation_score caller user avg total s = (.error e, s) := by
  unfold update_reputation_score
  rw [hc]

/-- No public operation ever decreases the id counter, so ids handed out by
`next_token_id` can never repeat across any operation sequence. -/
theorem exec_counter_mono (o : Op) (s : ContractState) :
    s.counter ≤ (exec o s).counter := by
  cases o with
  | opInit admin => exact le_refl _
  | opMint caller toA token_id name description uri =>
      show s.counter ≤ (mint caller toA token_id name description uri s).2.counter
      unfold mint
      split
      · exact le_refl _
      · split
        · exact le_refl _
        · simp [save_token_owner, store_metadata, save_token_metadata,
            index_user_achievement, update_achievement_stats]
  | opMintAchv caller toA nft_type =>
      show s.counter ≤ (mint_achv caller toA nft_type s).2.counter
      unfold mint_achv
      split
      · exact le_refl _
      · simp [next_token_id, save_token_owner, store_metadata, save_token_metadata,
          index_user_achievement, update_achievement_stats]
  | opMintRating caller toA ty rd =>
      show s.counter ≤ (mint_rating_achievement caller toA ty rd s).2.counter
      unfold mint_rating_achievement
      split
      · exact le_refl _
      · simp [next_token_id, save_token_owner, store_metadata, save_token_metadata,
          index_user_achievement, update_achievement_stats]
  | opTransfer frm toA token_id =>
      show s.counter ≤ (transfer frm toA token_id s).2.counter
      unfold transfer
      split
      · exact le_refl _
      next owner ho =>
        split
        · exact le_refl _
        next hfrm =>
          simp only [check_owner]
          split
          · exact le_refl _
          next m hm =>
            split
            case _ | _ =>
              simp [update_leaderboard, index_user_achievement, save_token_owner]
            · exact le_refl _
  | opBurn caller token_id =>
      show s.counter ≤ (burn caller token_id s).2.counter
      unfold burn
      split
      · exact le_refl _
      · split
        · exact le_refl _
        · simp [burn_token]
  | opBatchMint caller tos names descriptions uris =>
      show s.counter ≤ (batch_mint caller tos names descriptions uris s).2.counter
      unfold batch_mint
      split
      · exact le_refl _
      · show s.counter ≤ ((if names.length ≠ tos.length ∨ descriptions.length ≠ tos.length ∨
            uris.length ≠ tos.length then
            ((Except.error Error.Unauthorized, s) : Except Error Unit × ContractState)
          else batch_loop tos names descriptions uris 0 s)).2.counter
        split
        · exact le_refl _
        · exact counter_batch_loop 0 s
  | opUpdateScore caller user avg total =>
      show s.counter ≤ (update_reputation_score caller user avg total s).2.counter
      cases hc : check_minter s caller with
      | error e =>
          rw [update_score_err hc]
      | ok u =>
          cases u
          have := (update_score_spec s caller user avg total hc).2.1
          rw [this]
          exact Nat.le_add_right _ _
  | opAddMinter caller m =>
      show s.counter ≤ (add_minter_access s caller m).2.counter
      unfold add_minter_access
      split <;> exact le_refl _
  | opRemoveMinter caller m =>
      show s.counter ≤ (remove_minter_access s caller m).2.counter
      unfold remove_minter_access
      split <;> exact le_refl _
  | opTransferAdmin caller newAdmin =>
      show s.counter ≤ (transfer_admin_access s caller newAdmin).2.counter
      unfold transfer_admin_access
      split <;> exact le_refl _

theorem nextIds_eq_range (n : Nat) : ∀ s : ContractState,
    nextIds s n = List.range' (s.counter + 1) n := by
  induction n with
  | zero => intro s; rfl
  | succ n ih =>
      intro s
      simp [nextIds, next_token_id, ih, List.range'_succ]

/-- C6: ids assigned by `next_token_id` over any sequence of auto-issuance
calls are exactly the consecutive values `counter+1, counter+2, …`: from the
fresh contract state they are `1, 2, …, n`, strictly increasing, never 0,
never repeated, and the first one is 1; moreover no public operation ever
decreases the counter, so ids never repeat across any operation sequence. -/
theorem C6_id_counter (n : Nat) :
    nextIds initState n = List.range' 1 n
    ∧ (∀ s : ContractState, nextIds s n = List.range' (s.counter + 1) n)
    ∧ List.Chain' (· < ·) (nextIds initState n)
    ∧ (nextIds initState n).Nodup
    ∧ 0 ∉ nextIds initState n
    ∧ (0 < n → (nextIds initState n).head? = some 1)
    ∧ (∀ (o : Op) (s : ContractState), s.counter ≤ (exec o s).counter) := by
  have hbase : nextIds initState n = List.range' 1 n := nextIds_eq_range n initState
  refine ⟨hbase, nextIds_eq_range n, ?_, ?_, ?_, ?_, exec_counter_mono⟩
  · rw [hbase]
    exact (List.pairwise_lt_range' 1 n).chain'
  · rw [hbase]
    exact List.nodup_range' 1 n
  · rw [hbase]
    intro hmem
    rw [List.mem_range'_1] at hmem
    omega
  · intro hn
    rw [hbase]
    cases n with
    | zero => omega
    | succ n => rfl

/-- Concrete instantiation of C6 at `n = 3`: the first three auto-assigned ids
are `[1, 2, 3]` and the head is 1. -/
theorem C6_id_counter_witness :
    nextIds initState 3 = List.range' 1 3 ∧ (nextIds initState 3).head? = some 1 :=
  ⟨(C6_id_counter 3).1, (C6_id_counter 3).2.2.2.2.2.1 (by decide)⟩

/-! ### Claim C7 -/

theorem foldl_rank_count (l : List (Address × Nat)) (x : Nat) :
    ∀ init : Nat, l.foldl (fun rank e => if x < e.2 then rank + 1 else rank) init
      = init + (l.filter (fun e => x < e.2)).length := by
  induction l with
  | nil => intro init; simp
  | cons e t ih =>
      intro init
      by_cases h : x < e.2 <;> simp [List.foldl_cons, h, ih, List.filter_cons] <;> omega

theorem filter_lt_length_mono (l : List (Address × Nat)) {a b : Nat} (hba : b ≤ a) :
    (l.filter (fun e => a < e.2)).length ≤ (l.filter (fun e => b < e.2)).length := by
  induction l with
  | nil => simp
  | cons e t ih =>
      by_cases h : a < e.2
      · have h' : b < e.2 := lt_of_le_of_lt hba h
        simp [List.filter_cons, h, h']
        omega
      · by_cases h' : b < e.2 <;> simp [List.filter_cons, h, h'] <;> omega

theorem filter_lt_length_strict (l : List (Address × Nat)) {A : Address} {a b : Nat}
    (hmem : (A, a) ∈ l) (hba : b < a) :
    (l.filter (fun e => a < e.2)).length < (l.filter (fun e => b < e.2)).length := by
  induction l with
  | nil => simp at hmem
  | cons e t ih =>
      rcases List.mem_cons.mp hmem with heq | hmem'
      · subst heq
        have hmono := filter_lt_length_mono t (le_of_lt hba)
        simp only [List.filter_cons]
        simp [lt_irrefl, hba]
        omega
      · have := ih hmem'
        by_cases h : a < e.2
        · have h' : b < e.2 := lt_trans hba h
          simp [List.filter_cons, h, h']
          omega
        · by_cases h' : b < e.2 <;> simp [List.filter_cons, h, h'] <;> omega

/-- C7: `rank(owner)` equals 1 plus the number of leaderboard entries whose
value strictly exceeds the owner's value (an absent owner counting as value 0);
consequently a strictly larger value gives a strictly smaller rank, and equal
values give equal ranks. -/
theorem C7_rank_ordering (s : ContractState) (A B : Address) (a b : Nat)
    (hA : alGet s.leaderboard A = some a) (hB : alGet s.leaderboard B = some b) :
    (∀ u : Address, get_user_rank s u
        = 1 + (s.leaderboard.filter
            (fun e => (alGet s.leaderboard u).getD 0 < e.2)).length)
    ∧ (b < a → get_user_rank s A < get_user_rank s B)
    ∧ (a = b → get_user_rank s A = get_user_rank s B) := by
  have hrank : ∀ u : Address, get_user_rank s u
      = 1 + (s.leaderboard.filter
          (fun e => (alGet s.leaderboard u).getD 0 < e.2)).length := by
    intro u
    unfold get_user_rank
    rw [foldl_rank_count]
  refine ⟨hrank, ?_, ?_⟩
  · intro hba
    rw [hrank A, hrank B, hA, hB]
    simp only [Option.getD_some]
    have := filter_lt_length_strict s.leaderboard (mem_of_alGet_eq_some hA) hba
    omega
  · intro heq
    rw [hrank A, hrank B, hA, hB, heq]

/-- Concrete instantiation of C7: address 1 (value 2) is ranked strictly above
address 2 (value 1), and the rank of address 1 satisfies the counting
formula. -/
theorem C7_rank_ordering_witness :
    get_user_rank c7S 1
        = 1 + (c7S.leaderboard.filter
            (fun e => (alGet c7S.leaderboard 1).getD 0 < e.2)).length
    ∧ get_user_rank c7S 1 < get_user_rank c7S 2 :=
  ⟨(C7_rank_ordering c7S 1 2 2 1 rfl rfl).1 1,
   (C7_rank_ordering c7S 1 2 2 1 rfl rfl).2.1 (by decide)⟩

/-! ### Claim C5 -/


/-- C5: `update_score(caller, subject, 400, 10)` by an authorized caller
issues exactly one new record to the subject — owner and metadata (category
`RatingMilestone`) are written at the single fresh id `counter+1` and nothing
else in the owner/metadata maps changes; the three threshold rules are
evaluated independently on every call (the number of ids consumed equals the
number of rules that fire); and repeating the identical call issues the
milestone again at the next fresh id (no already-awarded guard). -/
theorem C5_threshold_auto_issuance (s : ContractState) (caller user : Address)
    (hc : check_minter s caller = .ok ()) :
    ((update_reputation_score caller user 400 10 s).1 = .ok ()
      ∧ (update_reputation_score caller user 400 10 s).2.owners
          = alSet s.owners (s.counter + 1) user
      ∧ (update_reputation_score caller user 400 10 s).2.metas
          = alSet s.metas (s.counter + 1) msTen
      ∧ (update_reputation_score caller user 400 10 s).2.counter = s.counter + 1)
    ∧ (∀ avg total : Nat,
        (update_reputation_score caller user avg total s).1 = .ok ()
        ∧ (update_reputation_score caller user avg total s).2.counter
            = s.counter + ((if total = 10 ∧ 400 ≤ avg then 1 else 0)
                + (if 480 ≤ avg ∧ 20 ≤ total then 1 else 0)
                + (if 50 ≤ total ∧ 450 ≤ avg then 1 else 0)))
    ∧ ((update_reputation_score caller user 400 10
          (update_reputation_score caller user 400 10 s).2).2.owners
        = alSet (alSet s.owners (s.counter + 1) user) (s.counter + 2) user
      ∧ (update_reputation_score caller user 400 10
          (update_reputation_score caller user 400 10 s).2).2.metas
        = alSet (alSet s.metas (s.counter + 1) msTen) (s.counter + 2) msTen) := by
  obtain ⟨h1r, h1o, h1m, h1c, h1mnt, h1adm⟩ := update_score_400_10_spec s caller user hc
  have hc' : check_minter (update_reputation_score caller user 400 10 s).2 caller
      = .ok () := by
    rw [check_minter_congr caller h1mnt h1adm]
    exact hc
  obtain ⟨h2r, h2o, h2m, h2c, h2mnt, h2adm⟩ :=
    update_score_400_10_spec (update_reputation_score caller user 400 10 s).2 caller user hc'
  refine ⟨⟨h1r, h1o, h1m, h1c⟩, ?_, ?_, ?_⟩
  · intro avg total
    obtain ⟨hr, hcnt, -, -⟩ := update_score_spec s caller user avg total hc
    exact ⟨hr, hcnt⟩
  · rw [h2o, h1o, h1c]
  · rw [h2m, h1m, h1c]

/-- Concrete instantiation of C5: from the freshly initialized state (admin 0),
`update_score(0, 7, 400, 10)` issues record 1 to subject 7 with category
`RatingMilestone`, and the identical second call issues record 2 to 7. -/
theorem C5_threshold_auto_issuance_witness :
    ((update_reputation_score 0 7 400 10 demoS0).2.owners = alSet demoS0.owners 1 7
      ∧ (update_reputation_score 0 7 400 10 demoS0).2.metas = alSet demoS0.metas 1 msTen)
    ∧ (update_reputation_score 0 7 400 10
          (update_reputation_score 0 7 400 10 demoS0).2).2.owners
        = alSet (alSet demoS0.owners 1 7) 2 7 := by
  have h := C5_threshold_auto_issuance demoS0 0 7 (by decide)
  exact ⟨⟨h.1.2.1, h.1.2.2.1⟩, h.2.2.1⟩

/-! ### Claim C4 -/

theorem get_token_owner_eq_ok {s : ContractState} {id : TokenId} {o : Address} :
    get_token_owner s id = .ok o ↔ alGet s.owners id = some o := by
  unfold get_token_owner
  cases h : alGet s.owners id <;> simp

/-- A successful `transfer` implies the `from` argument was the stored owner,
and the final state is the exact write sequence of contract.rs lines
124-131. -/
theorem transfer_success {s s' : ContractState} {frm toA : Address} {id : TokenId}
    (h : transfer frm toA id s = (.ok (), s')) :
    alGet s.owners id = some frm
    ∧ s' = update_leaderboard (update_leaderboard (index_user_achievement
        (remove_user_achievement_index (save_token_owner s id toA) frm id) toA id) frm) toA := by
  unfold transfer at h
  split at h
  · exact absurd h (by simp)
  next owner ho =>
    split at h
    · exact absurd h (by simp)
    next hfrm =>
      have howner : owner = frm := not_not.mp (by exact hfrm)
      subst howner
      simp only [check_owner] at h
      split at h
      · exact absurd h (by simp)
      next m hm =>
        split at h
        case _ =>
          simp only [Prod.mk.injEq] at h
          exact ⟨get_token_owner_eq_ok.mp ho, h.2.symm⟩
        case _ =>
          simp only [Prod.mk.injEq] at h
          exact ⟨get_token_owner_eq_ok.mp ho, h.2.symm⟩
        case _ =>
          exact absurd h (by simp)

/-- C4 (amended): after a successful `transfer(from, to, id)` with
`from ≠ to`, `id` is absent from `list(from)` (every occurrence removed), the
number of occurrences of `id` in `list(to)` is exactly one more than before
the transfer (hence exactly once whenever `to`'s list did not already contain
`id`), and the leaderboard entries of both `from` and `to` equal the new
lengths of their index lists. -/
theorem C4_index_consistency_amended (s s' : ContractState) (frm toA : Address)
    (id : TokenId) (hne : frm ≠ toA) (h : transfer frm toA id s = (.ok (), s')) :
    List.count id (get_user_achievements s' frm) = 0
    ∧ List.count id (get_user_achievements s' toA)
        = List.count id (get_user_achievements s toA) + 1
    ∧ alGet s'.leaderboard frm = some (get_user_achievements s' frm).length
    ∧ alGet s'.leaderboard toA = some (get_user_achievements s' toA).length := by
  obtain ⟨-, hs⟩ := transfer_success h
  subst hs
  have htoAne : toA ≠ frm := Ne.symm hne
  cases hrem : alGet s.userAchievements frm with
  | none =>
      simp only [update_leaderboard, index_user_achievement, save_token_owner,
        remove_user_achievement_index, hrem, get_user_achievements, alGet_alSet,
        if_pos rfl, if_neg hne, if_neg htoAne]
      simp [hrem, List.count_append]
  | some l =>
      simp only [update_leaderboard, index_user_achievement, save_token_owner,
        remove_user_achievement_index, hrem, get_user_achievements, alGet_alSet,
        if_pos rfl, if_neg hne, if_neg htoAne]
      simp [hrem, List.count_append, List.count_eq_zero, List.mem_filter]

/-! ### Batch-loop characterization (claim C8, and evaluation of batch states) -/

theorem zip4_getElem? {tos : List Address} {names descriptions uris : List String} {i : Nat}
    {a : Address} {b c d : String} (h1 : tos[i]? = some a) (h2 : names[i]? = some b)
    (h3 : descriptions[i]? = some c) (h4 : uris[i]? = some d) :
    (zip4 tos names descriptions uris)[i]? = some (a, b, c, d) := by
  unfold zip4
  rw [List.getElem?_zip_eq_some]
  refine ⟨h1, ?_⟩
  rw [List.getElem?_zip_eq_some]
  refine ⟨h2, ?_⟩
  rw [List.getElem?_zip_eq_some]
  exact ⟨h3, h4⟩

theorem zip4_drop_cons {tos : List Address} {names descriptions uris : List String} {i : Nat}
    {a : Address} {b c d : String} (h1 : tos.get? i = some a) (h2 : names.get? i = some b)
    (h3 : descriptions.get? i = some c) (h4 : uris.get? i = some d) :
    (zip4 tos names descriptions uris).drop i
      = (a, b, c, d) :: (zip4 tos names descriptions uris).drop (i + 1) := by
  rw [List.get?_eq_getElem?] at h1 h2 h3 h4
  have hz := zip4_getElem? h1 h2 h3 h4
  have hlt : i < (zip4 tos names descriptions uris).length := by
    by_contra hge
    rw [List.getElem?_eq_none (by omega)] at hz
    exact absurd hz (by simp)
  rw [List.drop_eq_getElem_cons hlt]
  rw [List.getElem?_eq_getElem hlt] at hz
  simp only [Option.some.injEq] at hz
  rw [hz]

theorem zip4_length_of_eq {tos : List Address} {names descriptions uris : List String}
    (h1 : names.length = tos.length) (h2 : descriptions.length = tos.length)
    (h3 : uris.length = tos.length) :
    (zip4 tos names descriptions uris).length = tos.length := by
  unfold zip4
  simp [List.length_zip, h1, h2, h3]

/-- When the four columns have equal length the batch loop succeeds and is the
left fold of `batch_entry` over the entries in strict index order. -/
theorem batch_loop_ok {tos : List Address} {names descriptions uris : List String}
    (h1 : names.length = tos.length) (h2 : descriptions.length = tos.length)
    (h3 : uris.length = tos.length) :
    ∀ i s, batch_loop tos names descriptions uris i s
      = (.ok (), List.foldl batch_entry s ((zip4 tos names descriptions uris).drop i)) := by
  intro i s
  induction i, s using batch_loop.induct tos names descriptions uris with
  | case1 i s hlt toA nm dsc ur h4g h3g h2g h1g ih =>
      rw [batch_loop, dif_pos hlt, h1g, h2g, h3g, h4g]
      show batch_loop tos names descriptions uris (i + 1) (batch_entry s (toA, nm, dsc, ur))
        = (.ok (), List.foldl batch_entry s ((zip4 tos names descriptions uris).drop i))
      rw [ih, zip4_drop_cons h1g h2g h3g h4g, List.foldl_cons]
  | case2 i s hlt hfalse =>
      exfalso
      have g1 : tos.get? i ≠ none := by
        simp only [ne_eq, List.get?_eq_none]
        omega
      have g2 : names.get? i ≠ none := by
        simp only [ne_eq, List.get?_eq_none]
        omega
      have g3 : descriptions.get? i ≠ none := by
        simp only [ne_eq, List.get?_eq_none]
        omega
      have g4 : uris.get? i ≠ none := by
        simp only [ne_eq, List.get?_eq_none]
        omega
      rcases hg1 : tos.get? i with _ | a
      · exact g1 hg1
      rcases hg2 : names.get? i with _ | b
      · exact g2 hg2
      rcases hg3 : descriptions.get? i with _ | c
      · exact g3 hg3
      rcases hg4 : uris.get? i with _ | d
      · exact g4 hg4
      exact hfalse a b c d hg1 hg2 hg3 hg4
  | case3 i s hge =>
      rw [batch_loop, dif_neg hge,
        List.drop_eq_nil_of_le (by rw [zip4_length_of_eq h1 h2 h3]; omega)]
      rfl

/-- When the batch loop aborts it reports `TokenDoesNotExist`, and the state it
leaves behind contains exactly the writes of the entries that preceded the
fault (which are all the complete entries, i.e. the whole zip). -/
theorem batch_loop_err {tos : List Address} {names descriptions uris : List String} :
    ∀ i s e s', batch_loop tos names descriptions uris i s = (.error e, s') →
      e = .TokenDoesNotExist
      ∧ s' = List.foldl batch_entry s ((zip4 tos names descriptions uris).drop i) := by
  intro i s
  induction i, s using batch_loop.induct tos names descriptions uris with
  | case1 i s hlt toA nm dsc ur h4g h3g h2g h1g ih =>
      intro e s' h
      rw [batch_loop, dif_pos hlt, h1g, h2g, h3g, h4g] at h
      have h' : batch_loop tos names descriptions uris (i + 1)
          (batch_entry s (toA, nm, dsc, ur)) = (.error e, s') := h
      obtain ⟨he, hs⟩ := ih e s' h'
      rw [zip4_drop_cons h1g h2g h3g h4g, List.foldl_cons]
      exact ⟨he, hs⟩
  | case2 i s hlt hfalse =>
      intro e s' h
      rw [batch_loop, dif_pos hlt] at h
      have hnil : (zip4 tos names descriptions uris).drop i = [] := by
        apply List.drop_eq_nil_of_le
        rcases hg1 : tos.get? i with _ | a
        · rw [List.get?_eq_none] at hg1
          unfold zip4
          simp [List.length_zip]
          omega
        rcases hg2 : names.get? i with _ | b
        · rw [List.get?_eq_none] at hg2
          unfold zip4
          simp [List.length_zip]
          omega
        rcases hg3 : descriptions.get? i with _ | c
        · rw [List.get?_eq_none] at hg3
          unfold zip4
          simp [List.length_zip]
          omega
        rcases hg4 : uris.get? i with _ | d
        · rw [List.get?_eq_none] at hg4
          unfold zip4
          simp [List.length_zip]
          omega
        exact absurd trivial (fun _ => hfalse a b c d hg1 hg2 hg3 hg4)
      rw [hnil]
      rcases hg1 : tos.get? i with _ | a <;>
        rcases hg2 : names.get? i with _ | b <;>
        rcases hg3 : descriptions.get? i with _ | c <;>
        rcases hg4 : uris.get? i with _ | d <;>
        rw [hg1, hg2, hg3, hg4] at h <;>
        first
          | exact (hfalse a b c d hg1 hg2 hg3 hg4).elim
          | (have h' : ((.error .TokenDoesNotExist, s) :
                Except Error Unit × ContractState) = (.error e, s') := h
             simp only [Prod.mk.injEq, Except.error.injEq] at h'
             exact ⟨h'.1.symm, h'.2.symm⟩)
  | case3 i s hge =>
      intro e s' h
      rw [batch_loop, dif_neg hge] at h
      exact absurd h (by simp)

/-- `batch_mint` with matching columns: success, processed as the in-order
fold. -/
theorem batch_mint_ok (caller : Address) (tos : List Address)
    (names descriptions uris : List String) (s : ContractState)
    (hc : check_minter s caller = .ok ()) (h1 : names.length = tos.length)
    (h2 : descriptions.length = tos.length) (h3 : uris.length = tos.length) :
    batch_mint caller tos names descriptions uris s
      = (.ok (), List.foldl batch_entry s (zip4 tos names descriptions uris)) := by
  unfold batch_mint
  simp only [hc]
  rw [if_neg (by simp [h1, h2, h3])]
  simpa using batch_loop_ok h1 h2 h3 0 s

/-- `batch_mint` with mismatched columns: fails with `Unauthorized` before any
entry is processed (state unchanged). -/
theorem batch_mint_mismatch (caller : Address) (tos : List Address)
    (names descriptions uris : List String) (s : ContractState)
    (hc : check_minter s caller = .ok ())
    (h : names.length ≠ tos.length ∨ descriptions.length ≠ tos.length ∨
      uris.length ≠ tos.length) :
    batch_mint caller tos names descriptions uris s = (.error .Unauthorized, s) := by
  unfold batch_mint
  simp only [hc]
  rw [if_pos h]

/-- Evaluation rule for a batch operation with matching columns. -/
theorem exec_batch (caller : Address) (tos : List Address)
    (names descriptions uris : List String) (s : ContractState)
    (hc : check_minter s caller = .ok ()) (h1 : names.length = tos.length)
    (h2 : descriptions.length = tos.length) (h3 : uris.length = tos.length) :
    exec (.opBatchMint caller tos names descriptions uris) s
      = List.foldl batch_entry s (zip4 tos names descriptions uris) := by
  show (batch_mint caller tos names descriptions uris s).2 = _
  rw [batch_mint_ok caller tos names descriptions uris s hc h1 h2 h3]

/-! ### Kernel-evaluable forms of the batch demo states -/

theorem c4Pre_eval : c4Pre = c4D := by
  have hb1 : exec (.opBatchMint 0 [2] ["a"] ["b"] ["c"]) c4B = c4C :=
    exec_batch 0 [2] ["a"] ["b"] ["c"] c4B (by decide) rfl rfl rfl
  have hb2 : exec (.opBatchMint 0 [2] ["a"] ["b"] ["c"]) c4C = c4D :=
    exec_batch 0 [2] ["a"] ["b"] ["c"] c4C (by decide) rfl rfl rfl
  show exec (.opBatchMint 0 [2] ["a"] ["b"] ["c"])
      (exec (.opBatchMint 0 [2] ["a"] ["b"] ["c"]) c4B) = c4D
  rw [hb1, hb2]

/-- Counterexample to C4 as stated: this transfer succeeds with `from ≠ to`,
yet afterwards `id = 2` occurs twice (not exactly once) in `list(to)`. -/
theorem C4_index_consistency_counterexample :
    (transfer 2 1 2 c4Pre).1 = .ok ()
    ∧ List.count 2 (get_user_achievements (transfer 2 1 2 c4Pre).2 1) = 2 := by
  rw [c4Pre_eval]
  decide

/-- Concrete instantiation of the amended C4 on the same transfer. -/
theorem C4_index_consistency_amended_witness :
    List.count 2 (get_user_achievements (transfer 2 1 2 c4Pre).2 2) = 0
    ∧ List.count 2 (get_user_achievements (transfer 2 1 2 c4Pre).2 1)
        = List.count 2 (get_user_achievements c4Pre 1) + 1
    ∧ alGet (transfer 2 1 2 c4Pre).2.leaderboard 2
        = some (get_user_achievements (transfer 2 1 2 c4Pre).2 2).length
    ∧ alGet (transfer 2 1 2 c4Pre).2.leaderboard 1
        = some (get_user_achievements (transfer 2 1 2 c4Pre).2 1).length :=
  C4_index_consistency_amended c4Pre (transfer 2 1 2 c4Pre).2 2 1 2 (by decide)
    (by rw [c4Pre_eval]; decide)

/-! ### Claim C8 -/

/-- C8: batch issuance.  With mismatched input columns, `batch_mint` fails
with `Unauthorized` before any entry is written (state unchanged); with
matching columns the entries are processed strictly in index order (the state
is the left fold of the per-entry writer over the zipped columns); and a fault
detected mid-loop aborts further processing with `TokenDoesNotExist` while
keeping the writes of every complete entry already processed (the batch is not
atomic). -/
theorem C8_batch_issuance (caller : Address) (tos : List Address)
    (names descriptions uris : List String) (s : ContractState)
    (hc : check_minter s caller = .ok ()) :
    (¬ (names.length = tos.length ∧ descriptions.length = tos.length
        ∧ uris.length = tos.length) →
      batch_mint caller tos names descriptions uris s = (.error .Unauthorized, s))
    ∧ ((names.length = tos.length ∧ descriptions.length = tos.length
        ∧ uris.length = tos.length) →
      batch_mint caller tos names descriptions uris s
        = (.ok (), List.foldl batch_entry s (zip4 tos names descriptions uris)))
    ∧ (∀ (e : Error) (s' : ContractState),
        batch_loop tos names descriptions uris 0 s = (.error e, s') →
          e = .TokenDoesNotExist
          ∧ s' = List.foldl batch_entry s (zip4 tos names descriptions uris)) := by
  refine ⟨?_, ?_, ?_⟩
  · intro h
    apply batch_mint_mismatch caller tos names descriptions uris s hc
    by_contra hne
    push_neg at hne
    exact h ⟨hne.1, hne.2.1, hne.2.2⟩
  · intro h
    exact batch_mint_ok caller tos names descriptions uris s hc h.1 h.2.1 h.2.2
  · intro e s' h
    have := batch_loop_err 0 s e s' h
    simpa using this

/-- Concrete instantiation of C8: a mismatched batch is rejected unchanged, a
matching singleton batch commits its fold, and a loop started over mismatched
columns faults with `TokenDoesNotExist` after committing the complete
entries. -/
theorem C8_batch_issuance_witness :
    batch_mint 0 [1] [] [] [] demoS0 = (.error .Unauthorized, demoS0)
    ∧ batch_mint 0 [1] ["a"] ["b"] ["c"] demoS0
        = (.ok (), List.foldl batch_entry demoS0 (zip4 [1] ["a"] ["b"] ["c"]))
    ∧ (Error.TokenDoesNotExist = Error.TokenDoesNotExist
        ∧ demoS0 = List.foldl batch_entry demoS0 (zip4 [1] [] [] [])) := by
  refine ⟨?_, ?_, ?_⟩
  · exact (C8_batch_issuance 0 [1] [] [] [] demoS0 (by decide)).1 (by decide)
  · exact (C8_batch_issuance 0 [1] ["a"] ["b"] ["c"] demoS0 (by decide)).2.1
      ⟨rfl, rfl, rfl⟩
  · exact (C8_batch_issuance 0 [1] [] [] [] demoS0 (by decide)).2.2 .TokenDoesNotExist
      demoS0 (by rw [batch_loop]; rfl)

/-! ### Claim C10 -/

theorem c10Pre_eval : execList c10Ops initState = c4C := by
  show exec (.opBatchMint 0 [2] ["a"] ["b"] ["c"]) c4B = c4C
  exact exec_batch 0 [2] ["a"] ["b"] ["c"] c4B (by decide) rfl rfl rfl

/-- C10: no auto-assigning issuance path checks id occupancy.  `mint_achv` by
an authorized caller always succeeds and unconditionally overwrites the owner
entry of the id returned by `next_token_id`; and in the concrete sequence
`[init, mint(id 2 → addr 1), batch_mint(→ addr 2), batch_mint(→ addr 2)]` the
second batch's auto id reaches 2 and silently overwrites record 2's owner and
metadata — no transfer or burn happened, and address 1's index still contains
id 2. -/
theorem C10_auto_issuance_overwrites :
    (∀ (s : ContractState) (caller toA : Address) (tag : String),
        check_minter s caller = .ok () →
        (mint_achv caller toA tag s).1 = .ok ()
        ∧ (mint_achv caller toA tag s).2.owners = alSet s.owners (s.counter + 1) toA)
    ∧ (get_owner (execList c10Ops initState) 2 = .ok 1
        ∧ get_owner c4Pre 2 = .ok 2
        ∧ get_metadata c4Pre 2 = .ok ⟨"a", "b", "c", .Standard⟩
        ∧ 2 ∈ get_user_achievements c4Pre 1) := by
  constructor
  · intro s caller toA tag hc
    unfold mint_achv
    simp only [hc]
    constructor
    · simp [next_token_id, update_achievement_stats, index_user_achievement,
        store_metadata, save_token_metadata, save_token_owner]
    · simp [next_token_id, update_achievement_stats, index_user_achievement,
        store_metadata, save_token_metadata, save_token_owner]
  · rw [c10Pre_eval, c4Pre_eval]
    refine ⟨by decide, by decide, by decide, by decide⟩

/-- Concrete instantiation of C10's universal part: `mint_achv` overwrites the
owner map at the fresh id even from the demo state. -/
theorem C10_auto_issuance_overwrites_witness :
    (mint_achv 0 9 "z" demoS0).2.owners = alSet demoS0.owners 1 9
    ∧ get_owner c4Pre 2 = .ok 2 :=
  ⟨(C10_auto_issuance_overwrites.1 demoS0 0 9 "z" (by decide)).2,
   C10_auto_issuance_overwrites.2.2.1⟩

end RepNFT
